import Mathlib

/-
Verification of the label-chunked classifier aggregator of the astronomy
vision bot (src/main.py).  The pure core of `classify_astronomy_image` is
embedded shallowly: the zero-shot classification backend is an external
collaborator and is modelled abstractly (either as an arbitrary function, or
— for the chunk-invariance property — as the spec's ranked-list backend with
a deterministic per-label score); everything else (chunking, aggregation by
maximum score, the small-category path, the download error paths, the star
rating) is translated from the source.
Confidence scores are modelled as rationals.
-/

/-- ClassificationResult: one entry of the list returned by the
zero-shot classifier: a label together with its confidence score.
The source keeps exactly the fields label and score of each entry. -/
structure ClassificationResult where
  label : String
  score : ℚ
deriving DecidableEq, Repr

/-- Embedding of one step of the Python slicing loop
for i in range(0, len(labels), chunk_size): chunk = labels[i:i+chunk_size]
(src/main.py lines 128-129), with the remaining list as argument and
explicit fuel for termination.  For fuel at least the list length and a
positive chunk size it computes exactly the Python chunking. -/
def chunksGo (c : Nat) : Nat → List α → List (List α)
  | _, [] => []
  | 0, _ :: _ => []
  | fuel+1, x :: xs => ((x :: xs).take c) :: chunksGo c fuel ((x :: xs).drop c)

/-- Chunk a list into consecutive slices of size c, the last slice possibly
shorter (src/main.py lines 126-129, where c = 30). -/
def chunks (c : Nat) (l : List α) : List (List α) := chunksGo c l.length l

/-- One comparison step of Python max with a key function: the current best
is replaced only when the candidate's key is strictly larger, so on ties the
earlier element is kept. -/
def pbest (a b : ClassificationResult) : ClassificationResult :=
  if a.score < b.score then b else a

/-- Embedding of Python max(category_results, key=lambda x: x[score])
(src/main.py line 138): scan left to right, replacing the current best only
on a strictly larger key, so the first element attaining the maximum wins;
none on the empty list (the source guards with "if category_results:"). -/
def maxByScore : List ClassificationResult → Option ClassificationResult
  | [] => none
  | x :: xs => some (xs.foldl pbest x)

/-- Combination of the optional maxima of two list segments. -/
def combineOpt : Option ClassificationResult → Option ClassificationResult →
    Option ClassificationResult
  | none, b => b
  | some a, none => some a
  | some a, some b => some (pbest a b)

/-- Insert a result in front of the first element whose score it meets or
exceeds.  Used to model the ranked output of the backend as a stable
descending sort. -/
def insertDesc (x : ClassificationResult) : List ClassificationResult → List ClassificationResult
  | [] => [x]
  | y :: ys => if y.score ≤ x.score then x :: y :: ys else y :: insertDesc x ys

/-- Stable descending sort by score (insertion sort). -/
def sortDesc : List ClassificationResult → List ClassificationResult
  | [] => []
  | x :: xs => insertDesc x (sortDesc xs)

/-- Modelled from the spec: the classification backend (the transformers
zero-shot pipeline bound to vision_classifier, an external collaborator not
part of this repository) "accepting an image and a list of candidate label
strings, returning a ranked list of (label, confidence) pairs, highest
confidence first".  As the chunk-invariance claim assumes, each label gets a
deterministic confidence independent of the other candidates, given here by
the score function; ranking is stable in the input order. -/
def vision_classifier (score : String → ℚ) (labels : List String) : List ClassificationResult :=
  sortDesc (labels.map (fun l => ⟨l, score l⟩))

/-- One category of the classification loop of classify_astronomy_image
(src/main.py lines 122-152), abstracted over the backend B: with more than
100 labels, classify the 30-sized chunks and keep the maximum-score result
over all collected chunk results; otherwise one call with the full list and
keep its first result.  Returns none when no result was collected (the
source then records nothing for the category). -/
def classifyCategoryPure (B : List String → List ClassificationResult)
    (labels : List String) : Option ClassificationResult :=
  if labels.length > 100 then
    maxByScore ((chunks 30 labels).map B).flatten
  else
    (B labels).head?

/-- The results dictionary built by classify_astronomy_image: insertion-order
association list over the categories, a category being absent when its
classification produced no result (src/main.py lines 119-154). -/
def classifyAllPure (B : List String → List ClassificationResult)
    (cats : List (String × List String)) : List (String × ClassificationResult) :=
  cats.filterMap (fun p => (classifyCategoryPure B p.2).map (fun r => (p.1, r)))

/-- The argument lists passed to the backend while classifying one category:
the 30-chunks when the category has more than 100 labels, otherwise the full
label list once (src/main.py lines 122-147). -/
def categoryCalls (labels : List String) : List (List String) :=
  if labels.length > 100 then chunks 30 labels else [labels]

/-- Python int() truncates toward zero; on a rational this is the truncated
quotient of numerator by denominator. -/
def pyInt (q : ℚ) : ℤ := Int.tdiv q.num q.den

/-- Star rating of a confidence score: min(5, int(score * 5) + 1)
(src/main.py line 198 computes the repetition count of the star glyph). -/
def confidenceStars (score : ℚ) : ℤ := min 5 (pyInt (score * 5) + 1)

/-- The 88 modern IAU constellations (src/main.py lines 46-61). -/
def CONSTELLATIONS_88 : List String := [
  "Andromeda", "Antlia", "Apus", "Aquarius", "Aquila", "Ara", "Aries",
  "Auriga", "Bo√∂tes", "Caelum", "Camelopardalis", "Cancer", "Canes Venatici",
  "Canis Major", "Canis Minor", "Capricornus", "Carina", "Cassiopeia", "Centaurus",
  "Cepheus", "Cetus", "Chamaeleon", "Circinus", "Columba", "Coma Berenices",
  "Corona Australis", "Corona Borealis", "Corvus", "Crater", "Crux", "Cygnus",
  "Delphinus", "Dorado", "Draco", "Equuleus", "Eridanus", "Fornax", "Gemini",
  "Grus", "Hercules", "Horologium", "Hydra", "Hydrus", "Indus", "Lacerta",
  "Leo", "Leo Minor", "Lepus", "Libra", "Lupus", "Lynx", "Lyra", "Mensa",
  "Microscopium", "Monoceros", "Musca", "Norma", "Octans", "Ophiuchus",
  "Orion", "Pavo", "Pegasus", "Perseus", "Phoenix", "Pictor", "Pisces",
  "Piscis Austrinus", "Puppis", "Pyxis", "Reticulum", "Sagitta", "Sagittarius",
  "Scorpius", "Sculptor", "Scutum", "Serpens", "Sextans", "Taurus", "Telescopium",
  "Triangulum", "Triangulum Australe", "Tucana", "Ursa Major", "Ursa Minor",
  "Vela", "Virgo", "Volans", "Vulpecula"]

/-- Named stars before formatting (src/main.py lines 65-71). -/
def STARS_RAW : List String := [
  "Sirius", "Canopus", "Rigil Kentaurus", "Arcturus", "Vega", "Capella",
  "Rigel", "Procyon", "Achernar", "Betelgeuse", "Hadar", "Altair",
  "Acrux", "Aldebaran", "Antares", "Spica", "Pollux", "Fomalhaut",
  "Deneb", "Mimosa", "Regulus", "Adhara", "Castor", "Gacrux",
  "Shaula", "Bellatrix", "Elnath", "Miaplacidus", "Alnilam", "Alnitak"]

/-- The built-in taxonomy after the formatting reassignments of
src/main.py lines 96-97 (constellation and star labels get a suffix). -/
def ASTRONOMY_LABELS : List (String × List String) := [
  ("constellations", CONSTELLATIONS_88.map (fun c => c ++ " constellation")),
  ("stars", STARS_RAW.map (fun s => s ++ " star")),
  ("deep_sky", [
    "spiral galaxy", "elliptical galaxy", "irregular galaxy",
    "globular cluster", "open cluster", "planetary nebula",
    "emission nebula", "reflection nebula", "dark nebula",
    "supernova remnant", "galaxy cluster", "quasar"]),
  ("planets", [
    "Mercury", "Venus", "Earth", "Mars", "Jupiter", "Saturn",
    "Uranus", "Neptune", "Pluto"]),
  ("moon_phases", [
    "new moon", "waxing crescent", "first quarter", "waxing gibbous",
    "full moon", "waning gibbous", "last quarter", "waning crescent"]),
  ("solar_system", [
    "Sun", "Moon", "asteroid", "comet", "meteor", "aurora", "zodiacal light"]),
  ("space_objects", [
    "black hole", "neutron star", "pulsar", "binary star", "exoplanet",
    "brown dwarf", "white dwarf", "red giant", "supergiant"])]

/-- Overall fetch timeout passed to the HTTP client
(src/main.py line 102: ClientTimeout(total=20)). -/
def fetchTimeoutTotal : Nat := 20

/-- Body of an HTTP response, abstracting the downloaded bytes: PIL either
decodes them or raises. -/
inductive ImageBytes where
  | decodable : ImageBytes
  | malformed : ImageBytes
deriving DecidableEq, Repr

/-- Outcome of the HTTP fetch of the image URL: either a response with a
status code and a body, or the 20-unit overall timeout elapsing. -/
inductive HttpResponse where
  | response (status : Nat) (body : ImageBytes) : HttpResponse
  | timeout : HttpResponse
deriving DecidableEq, Repr

/-- Modelled from the spec: PIL image decoding (Image.open(...).convert, an
external collaborator not part of this repository) succeeds on decodable
bytes and raises ImageDecodeError on malformed bytes. -/
def imageOpen : ImageBytes → Except String Unit
  | .decodable => .ok ()
  | .malformed => .error "cannot identify image file"

/-- Embedding of download_image (src/main.py lines 100-110): a timeout
becomes the timed-out error, a non-200 status becomes a descriptive error
naming the status, otherwise the body is decoded. -/
def download_image : HttpResponse → Except String Unit
  | .timeout => .error "Image download timed out"
  | .response status body =>
    if status ≠ 200 then
      .error ("Image download failed (HTTP " ++ toString status ++ ")")
    else imageOpen body

/-- Per-chunk classification loop of the chunked path (src/main.py lines
128-134) over a fallible backend, also recording the argument list of every
backend call actually made: calls are issued in chunk order, results are
collected by extend, and the first raising call aborts the loop. -/
def runChunks (B : List String → Except String (List ClassificationResult)) :
    List (List String) → Except String (List ClassificationResult) × List (List String)
  | [] => (.ok [], [])
  | c :: cs =>
    match B c with
    | .error e => (.error e, [c])
    | .ok rs =>
      match runChunks B cs with
      | (.error e, log) => (.error e, c :: log)
      | (.ok rest, log) => (.ok (rs ++ rest), c :: log)

/-- One category of the classification loop over a fallible backend, with
the call log (src/main.py lines 122-152). -/
def classifyCategory (B : List String → Except String (List ClassificationResult))
    (labels : List String) : Except String (Option ClassificationResult) × List (List String) :=
  if labels.length > 100 then
    match runChunks B (chunks 30 labels) with
    | (.error e, log) => (.error e, log)
    | (.ok rs, log) => (.ok (maxByScore rs), log)
  else
    match B labels with
    | .error e => (.error e, [labels])
    | .ok rs => (.ok rs.head?, [labels])

/-- The category loop of classify_astronomy_image (src/main.py lines
119-154) over a fallible backend, with the call log: categories are
processed in declaration order, a raising call aborts the whole loop, a
category with no result is skipped. -/
def runCategories (B : List String → Except String (List ClassificationResult)) :
    List (String × List String) →
      Except String (List (String × ClassificationResult)) × List (List String)
  | [] => (.ok [], [])
  | (name, ls) :: rest =>
    match classifyCategory B ls with
    | (.error e, log) => (.error e, log)
    | (.ok r, log) =>
      match runCategories B rest with
      | (.error e, log2) => (.error e, log ++ log2)
      | (.ok m, log2) =>
        (.ok (match r with
              | none => m
              | some res => (name, res) :: m), log ++ log2)

/-- Embedding of classify_astronomy_image (src/main.py lines 112-158) over
an abstract network outcome and fallible backend, with the call log: the
image is downloaded first and any error aborts the whole operation before
any backend call; then the categories are classified in order. -/
def classify_astronomy_image (resp : HttpResponse)
    (B : List String → Except String (List ClassificationResult))
    (cats : List (String × List String)) :
    Except String (List (String × ClassificationResult)) × List (List String) :=
  match download_image resp with
  | .error e => (.error e, [])
  | .ok _ => runCategories B cats

theorem chunksGo_flatten {α : Type} (c : Nat) (hc : 0 < c) :
    ∀ (fuel : Nat) (l : List α), l.length ≤ fuel → (chunksGo c fuel l).flatten = l := by
  intro fuel
  induction fuel with
  | zero =>
    intro l hl
    cases l with
    | nil => rfl
    | cons x xs => simp at hl
  | succ n ih =>
    intro l hl
    cases l with
    | nil => rfl
    | cons x xs =>
      have hdrop : ((x :: xs).drop c).length ≤ n := by
        simp only [List.length_drop, List.length_cons] at hl ⊢
        omega
      simp only [chunksGo, List.flatten_cons, ih _ hdrop, List.take_append_drop]

theorem chunks_flatten {α : Type} (c : Nat) (hc : 0 < c) (l : List α) :
    (chunks c l).flatten = l :=
  chunksGo_flatten c hc l.length l le_rfl

theorem chunksGo_length_30 {α : Type} :
    ∀ (fuel : Nat) (l : List α), l.length ≤ fuel →
      (chunksGo 30 fuel l).length = (l.length + 29) / 30 := by
  intro fuel
  induction fuel with
  | zero =>
    intro l hl
    cases l with
    | nil => simp [chunksGo]
    | cons x xs => simp at hl
  | succ n ih =>
    intro l hl
    cases l with
    | nil => simp [chunksGo]
    | cons x xs =>
      have hdrop : ((x :: xs).drop 30).length ≤ n := by
        simp only [List.length_drop, List.length_cons] at hl ⊢
        omega
      have hrec := ih _ hdrop
      simp only [chunksGo, List.length_cons, hrec, List.length_drop] at hrec ⊢
      simp only [List.length_cons] at hl ⊢
      omega

theorem chunks_length_30 {α : Type} (l : List α) :
    (chunks 30 l).length = (l.length + 29) / 30 :=
  chunksGo_length_30 l.length l le_rfl

theorem pbest_assoc (a b c : ClassificationResult) :
    pbest (pbest a b) c = pbest a (pbest b c) := by
  simp only [pbest]
  split_ifs <;> first | rfl | (exfalso; linarith)

theorem foldl_pbest_cons :
    ∀ (ys : List ClassificationResult) (x y : ClassificationResult),
      ys.foldl pbest (pbest x y) = pbest x (ys.foldl pbest y) := by
  intro ys
  induction ys with
  | nil => intro x y; rfl
  | cons z zs ih =>
    intro x y
    simp only [List.foldl_cons]
    rw [pbest_assoc]
    exact ih x (pbest y z)

theorem maxByScore_cons (x : ClassificationResult) (xs : List ClassificationResult) :
    maxByScore (x :: xs) = some (match maxByScore xs with
      | none => x
      | some m => pbest x m) := by
  cases xs with
  | nil => rfl
  | cons y ys =>
    simp only [maxByScore, List.foldl_cons]
    rw [foldl_pbest_cons]

theorem maxByScore_append (l₁ l₂ : List ClassificationResult) :
    maxByScore (l₁ ++ l₂) = combineOpt (maxByScore l₁) (maxByScore l₂) := by
  induction l₁ with
  | nil => rfl
  | cons x xs ih =>
    rw [List.cons_append, maxByScore_cons, ih, maxByScore_cons]
    cases h₁ : maxByScore xs <;> cases h₂ : maxByScore l₂ <;>
      simp [combineOpt, pbest_assoc]

theorem head_insertDesc (x : ClassificationResult) (l : List ClassificationResult) :
    (insertDesc x l).head? = some (match l.head? with
      | none => x
      | some y => pbest x y) := by
  cases l with
  | nil => rfl
  | cons y ys =>
    simp only [insertDesc, List.head?_cons]
    by_cases h : y.score ≤ x.score
    · rw [if_pos h]
      simp [pbest, not_lt.mpr h]
    · rw [if_neg h]
      simp [pbest, not_le.mp h]

theorem head_sortDesc (l : List ClassificationResult) :
    (sortDesc l).head? = maxByScore l := by
  induction l with
  | nil => rfl
  | cons x xs ih =>
    simp only [sortDesc]
    rw [head_insertDesc, ih, maxByScore_cons]

theorem mem_insertDesc (z x : ClassificationResult) :
    ∀ (l : List ClassificationResult), z ∈ insertDesc x l → z = x ∨ z ∈ l := by
  intro l
  induction l with
  | nil =>
    intro h
    simp only [insertDesc, List.mem_singleton] at h
    exact Or.inl h
  | cons y ys ih =>
    intro h
    simp only [insertDesc] at h
    by_cases hc : y.score ≤ x.score
    · rw [if_pos hc] at h
      rcases List.mem_cons.mp h with h1 | h2
      · exact Or.inl h1
      · exact Or.inr h2
    · rw [if_neg hc] at h
      rcases List.mem_cons.mp h with h1 | h2
      · exact Or.inr (List.mem_cons.mpr (Or.inl h1))
      · rcases ih h2 with h3 | h4
        · exact Or.inl h3
        · exact Or.inr (List.mem_cons.mpr (Or.inr h4))

theorem pairwise_insertDesc (x : ClassificationResult) :
    ∀ (l : List ClassificationResult),
      l.Pairwise (fun a b => b.score ≤ a.score) →
      (insertDesc x l).Pairwise (fun a b => b.score ≤ a.score) := by
  intro l
  induction l with
  | nil => intro _; simp [insertDesc]
  | cons y ys ih =>
    intro hp
    rw [List.pairwise_cons] at hp
    obtain ⟨hy, hys⟩ := hp
    simp only [insertDesc]
    by_cases hc : y.score ≤ x.score
    · rw [if_pos hc, List.pairwise_cons]
      refine ⟨?_, List.pairwise_cons.mpr ⟨hy, hys⟩⟩
      intro z hz
      rcases List.mem_cons.mp hz with h1 | h2
      · rw [h1]; exact hc
      · exact le_trans (hy z h2) hc
    · rw [if_neg hc, List.pairwise_cons]
      refine ⟨?_, ih hys⟩
      intro z hz
      rcases mem_insertDesc z x ys hz with h1 | h2
      · rw [h1]; exact le_of_lt (not_le.mp hc)
      · exact hy z h2

theorem sortDesc_pairwise (l : List ClassificationResult) :
    (sortDesc l).Pairwise (fun a b => b.score ≤ a.score) := by
  induction l with
  | nil => simp [sortDesc]
  | cons x xs ih => exact pairwise_insertDesc x _ ih

theorem foldl_pbest_of_le (x : ClassificationResult) :
    ∀ (xs : List ClassificationResult), (∀ y ∈ xs, y.score ≤ x.score) →
      xs.foldl pbest x = x := by
  intro xs
  induction xs with
  | nil => intro _; rfl
  | cons y ys ih =>
    intro h
    simp only [List.foldl_cons]
    have hxy : pbest x y = x := by
      simp only [pbest]
      rw [if_neg (not_lt.mpr (h y (List.mem_cons_self y ys)))]
    rw [hxy]
    exact ih (fun z hz => h z (List.mem_cons_of_mem y hz))

theorem maxByScore_of_pairwise (l : List ClassificationResult)
    (hp : l.Pairwise (fun a b => b.score ≤ a.score)) :
    maxByScore l = l.head? := by
  cases l with
  | nil => rfl
  | cons x xs =>
    rw [List.pairwise_cons] at hp
    simp only [maxByScore, List.head?_cons]
    rw [foldl_pbest_of_le x xs hp.1]

theorem maxByScore_sortDesc (l : List ClassificationResult) :
    maxByScore (sortDesc l) = maxByScore l := by
  rw [maxByScore_of_pairwise _ (sortDesc_pairwise l), head_sortDesc]

theorem maxByScore_flatten_congr (f g : List String → List ClassificationResult) :
    ∀ (cs : List (List String)), (∀ c ∈ cs, maxByScore (f c) = maxByScore (g c)) →
      maxByScore ((cs.map f).flatten) = maxByScore ((cs.map g).flatten) := by
  intro cs
  induction cs with
  | nil => intro _; rfl
  | cons c cs ih =>
    intro h
    simp only [List.map_cons, List.flatten_cons]
    rw [maxByScore_append, maxByScore_append, h c (List.mem_cons_self c cs),
        ih (fun d hd => h d (List.mem_cons_of_mem c hd))]

theorem maxByScore_vision_classifier (s : String → ℚ) (c : List String) :
    maxByScore (vision_classifier s c) =
      maxByScore (c.map (fun l => ⟨l, s l⟩)) := by
  unfold vision_classifier
  rw [maxByScore_sortDesc]

theorem pyInt_eq_floor (q : ℚ) (h : 0 ≤ q) : pyInt q = Int.floor q := by
  unfold pyInt
  rw [Rat.floor_def, Int.tdiv_eq_ediv (Rat.num_nonneg.mpr h) (by positivity)]

theorem runChunks_ok_calls (B : List String → Except String (List ClassificationResult)) :
    ∀ (cs : List (List String)) (rs : List ClassificationResult) (log : List (List String)),
      runChunks B cs = (.ok rs, log) → ∀ c ∈ log, ∃ r, B c = .ok r := by
  intro cs
  induction cs with
  | nil =>
    intro rs log h c hc
    simp only [runChunks, Prod.mk.injEq] at h
    rw [← h.2] at hc
    simp at hc
  | cons d ds ih =>
    intro rs log h c hc
    simp only [runChunks] at h
    cases hB : B d with
    | error e =>
      rw [hB] at h
      simp only [Prod.mk.injEq] at h
      exact absurd h.1 (by simp)
    | ok r =>
      rw [hB] at h
      cases hrec : runChunks B ds with
      | mk res log2 =>
        rw [hrec] at h
        cases res with
        | error e =>
          simp only [Prod.mk.injEq] at h
          exact absurd h.1 (by simp)
        | ok rest =>
          simp only [Prod.mk.injEq] at h
          rw [← h.2] at hc
          rcases List.mem_cons.mp hc with h1 | h2
          · exact ⟨r, h1 ▸ hB⟩
          · exact ih rest log2 hrec c h2

theorem classifyCategory_ok_calls
    (B : List String → Except String (List ClassificationResult))
    (labels : List String) (r : Option ClassificationResult) (log : List (List String))
    (h : classifyCategory B labels = (.ok r, log)) : ∀ c ∈ log, ∃ rs, B c = .ok rs := by
  unfold classifyCategory at h
  by_cases hl : labels.length > 100
  · rw [if_pos hl] at h
    cases hrc : runChunks B (chunks 30 labels) with
    | mk res log2 =>
      rw [hrc] at h
      cases res with
      | error e =>
        simp only [Prod.mk.injEq] at h
        exact absurd h.1 (by simp)
      | ok rs =>
        simp only [Prod.mk.injEq] at h
        rw [← h.2]
        exact runChunks_ok_calls B _ rs log2 hrc
  · rw [if_neg hl] at h
    cases hB : B labels with
    | error e =>
      rw [hB] at h
      simp only [Prod.mk.injEq] at h
      exact absurd h.1 (by simp)
    | ok rs =>
      rw [hB] at h
      simp only [Prod.mk.injEq] at h
      rw [← h.2]
      intro c hc
      rw [List.mem_singleton.mp hc]
      exact ⟨rs, hB⟩

theorem runCategories_ok_calls
    (B : List String → Except String (List ClassificationResult)) :
    ∀ (cats : List (String × List String)) m (log : List (List String)),
      runCategories B cats = (.ok m, log) → ∀ c ∈ log, ∃ rs, B c = .ok rs := by
  intro cats
  induction cats with
  | nil =>
    intro m log h c hc
    simp only [runCategories, Prod.mk.injEq] at h
    rw [← h.2] at hc
    simp at hc
  | cons p rest ih =>
    intro m log h c hc
    obtain ⟨name, ls⟩ := p
    simp only [runCategories] at h
    cases hcc : classifyCategory B ls with
    | mk res log1 =>
      rw [hcc] at h
      cases res with
      | error e =>
        simp only [Prod.mk.injEq] at h
        exact absurd h.1 (by simp)
      | ok r =>
        cases hrec : runCategories B rest with
        | mk res2 log2 =>
          rw [hrec] at h
          cases res2 with
          | error e =>
            simp only [Prod.mk.injEq] at h
            exact absurd h.1 (by simp)
          | ok m2 =>
            simp only [Prod.mk.injEq] at h
            rw [← h.2] at hc
            rcases List.mem_append.mp hc with h1 | h2
            · exact classifyCategory_ok_calls B ls r log1 hcc c h1
            · exact ih m2 log2 hrec c h2

theorem runChunks_total (B : List String → List ClassificationResult) :
    ∀ (cs : List (List String)),
      runChunks (fun c => .ok (B c)) cs = (.ok (cs.map B).flatten, cs) := by
  intro cs
  induction cs with
  | nil => rfl
  | cons d ds ih => simp only [runChunks, ih, List.map_cons, List.flatten_cons]

theorem classifyCategory_total (B : List String → List ClassificationResult)
    (labels : List String) :
    classifyCategory (fun c => .ok (B c)) labels =
      (.ok (classifyCategoryPure B labels), categoryCalls labels) := by
  by_cases h : labels.length > 100
  · simp only [classifyCategory, classifyCategoryPure, categoryCalls, if_pos h,
      runChunks_total]
  · simp only [classifyCategory, classifyCategoryPure, categoryCalls, if_neg h]

theorem runCategories_total (B : List String → List ClassificationResult) :
    ∀ (cats : List (String × List String)),
      runCategories (fun c => .ok (B c)) cats =
        (.ok (classifyAllPure B cats), cats.flatMap (fun p => categoryCalls p.2)) := by
  intro cats
  induction cats with
  | nil => rfl
  | cons p rest ih =>
    obtain ⟨name, ls⟩ := p
    simp only [runCategories, classifyCategory_total, ih, classifyAllPure,
      List.filterMap_cons, List.flatMap_cons]
    cases h : classifyCategoryPure B ls <;> simp [h]

theorem maxByScore_eq_none_iff (l : List ClassificationResult) :
    maxByScore l = none ↔ l = [] := by
  cases l <;> simp [maxByScore]

theorem maxByScore_first_max :
    ∀ (rs : List ClassificationResult) (m : ClassificationResult),
      maxByScore rs = some m →
        m ∈ rs ∧ (∀ y ∈ rs, y.score ≤ m.score) ∧
        ∃ i : Nat, rs[i]? = some m ∧
          ∀ j : Nat, j < i → ∀ y : ClassificationResult,
            rs[j]? = some y → y.score < m.score := by
  intro rs
  induction rs with
  | nil => intro m h; simp [maxByScore] at h
  | cons x xs ih =>
    intro m h
    cases hxs : maxByScore xs with
    | none =>
      have hnil : xs = [] := (maxByScore_eq_none_iff xs).mp hxs
      subst hnil
      have hm : m = x := by
        have hx : maxByScore [x] = some x := rfl
        rw [hx, Option.some.injEq] at h
        exact h.symm
      subst hm
      refine ⟨List.mem_singleton.mpr rfl, ?_, 0, by simp, ?_⟩
      · intro y hy
        rw [List.mem_singleton.mp hy]
      · intro j hj
        exact absurd hj (by omega)
    | some mx =>
      have hpb : maxByScore (x :: xs) = some (pbest x mx) := by
        rw [maxByScore_cons, hxs]
      have hm : pbest x mx = m := by
        rw [hpb, Option.some.injEq] at h
        exact h
      obtain ⟨hmem, hmax, i, hi, hfirst⟩ := ih mx hxs
      by_cases hlt : x.score < mx.score
      · have hmm : m = mx := by
          rw [← hm]
          simp [pbest, hlt]
        subst hmm
        refine ⟨List.mem_cons_of_mem _ hmem, ?_, i + 1, ?_, ?_⟩
        · intro y hy
          rcases List.mem_cons.mp hy with h1 | h2
          · rw [h1]; exact le_of_lt hlt
          · exact hmax y h2
        · rw [List.getElem?_cons_succ]
          exact hi
        · intro j hj y hy
          cases j with
          | zero =>
            rw [List.getElem?_cons_zero, Option.some.injEq] at hy
            rw [← hy]
            exact hlt
          | succ k =>
            rw [List.getElem?_cons_succ] at hy
            exact hfirst k (by omega) y hy
      · have hmm : m = x := by
          rw [← hm]
          simp [pbest, hlt]
        subst hmm
        refine ⟨List.mem_cons_self _ _, ?_, 0, by simp, ?_⟩
        · intro y hy
          rcases List.mem_cons.mp hy with h1 | h2
          · rw [h1]
          · exact le_trans (hmax y h2) (not_lt.mp hlt)
        · intro j hj
          exact absurd hj (by omega)

/-- C1: for a category whose label list has more than the 100-label chunking
threshold, the chunked path partitions the labels into ceil(N / 30)
consecutive chunks whose concatenation reproduces the original label list
exactly — order preserved, no label duplicated, none omitted. -/
theorem chunked_path_partitions (labels : List String) (h : 100 < labels.length) :
    (chunks 30 labels).length = (labels.length + 30 - 1) / 30 ∧
    (chunks 30 labels).flatten = labels := by
  refine ⟨?_, chunks_flatten 30 (by norm_num) labels⟩
  rw [chunks_length_30]
  omega

/-- Witness for C1 at a concrete 101-label list. -/
theorem chunked_path_partitions_witness :
    100 < (List.replicate 101 "a").length ∧
    ((chunks 30 (List.replicate 101 "a")).length =
        ((List.replicate 101 "a").length + 30 - 1) / 30 ∧
      (chunks 30 (List.replicate 101 "a")).flatten = List.replicate 101 "a") :=
  ⟨by simp, chunked_path_partitions (List.replicate 101 "a") (by simp)⟩

/-- C2: for a category on the chunked path, with the spec's backend model —
each label receiving a deterministic confidence independent of the other
candidates in the call — the aggregated best result equals the top result
of classifying the full unpartitioned label list in one call: chunking does
not change the selected answer. -/
theorem chunking_preserves_answer (s : String → ℚ) (labels : List String)
    (h : 100 < labels.length) :
    classifyCategoryPure (vision_classifier s) labels =
      (vision_classifier s labels).head? := by
  unfold classifyCategoryPure
  rw [if_pos h]
  rw [maxByScore_flatten_congr (vision_classifier s)
      (fun c => c.map (fun l => ⟨l, s l⟩)) (chunks 30 labels)
      (fun c _ => maxByScore_vision_classifier s c)]
  rw [← List.map_flatten, chunks_flatten 30 (by norm_num) labels]
  unfold vision_classifier
  rw [head_sortDesc]

/-- Witness for C2 at a concrete 101-label list and constant score. -/
theorem chunking_preserves_answer_witness :
    classifyCategoryPure (vision_classifier (fun _ => 0)) (List.replicate 101 "a") =
      (vision_classifier (fun _ => 0) (List.replicate 101 "a")).head? :=
  chunking_preserves_answer (fun _ => 0) (List.replicate 101 "a") (by simp)

/-- C3: for a category with at most 100 labels exactly one backend call is
issued, carrying the full label list, and the first element of the ranked
result of that call is recorded unchanged as the category's answer. -/
theorem small_category_single_call
    (B : List String → Except String (List ClassificationResult))
    (labels : List String) (h : labels.length ≤ 100)
    (r : ClassificationResult) (rest : List ClassificationResult)
    (hB : B labels = .ok (r :: rest)) :
    classifyCategory B labels = (.ok (some r), [labels]) := by
  unfold classifyCategory
  rw [if_neg (by omega), hB]
  rfl

/-- Witness for C3 on a two-label category. -/
theorem small_category_single_call_witness :
    classifyCategory (fun _ => .ok [⟨"Mercury", 1⟩]) ["Mercury", "Venus"] =
      (.ok (some ⟨"Mercury", 1⟩), [["Mercury", "Venus"]]) :=
  small_category_single_call _ ["Mercury", "Venus"] (by simp) ⟨"Mercury", 1⟩ [] rfl

/-- C4: failure of the image fetch or decode, or of any classification call
actually issued, fails the whole classify operation: a download error is
propagated with no backend call made, and a returned aggregate implies that
every issued call succeeded — so results computed for earlier categories
are never returned once any call raises. -/
theorem classification_fail_fast (resp : HttpResponse)
    (B : List String → Except String (List ClassificationResult))
    (cats : List (String × List String)) :
    (∀ e, download_image resp = .error e →
      classify_astronomy_image resp B cats = (.error e, [])) ∧
    (∀ m log, classify_astronomy_image resp B cats = (.ok m, log) →
      ∀ c ∈ log, ∃ rs, B c = .ok rs) := by
  constructor
  · intro e he
    unfold classify_astronomy_image
    rw [he]
  · intro m log h c hc
    unfold classify_astronomy_image at h
    cases hd : download_image resp with
    | error e =>
      rw [hd] at h
      simp only [Prod.mk.injEq] at h
      exact absurd h.1 (by simp)
    | ok u =>
      rw [hd] at h
      exact runCategories_ok_calls B cats m log h c hc

/-- Witness for C4: a timed-out download aborts the whole operation. -/
theorem classification_fail_fast_witness :
    classify_astronomy_image .timeout (fun _ => .ok []) ASTRONOMY_LABELS =
      (.error "Image download timed out", []) :=
  (classification_fail_fast .timeout (fun _ => .ok []) ASTRONOMY_LABELS).1
    "Image download timed out" rfl

/-- C5: a fetch with a non-success HTTP status makes download_image raise a
descriptive error naming the status, and the classify operation returns
that error with an empty backend-call log: no classification call is
made. -/
theorem non_success_status_fails (status : Nat) (body : ImageBytes)
    (B : List String → Except String (List ClassificationResult))
    (cats : List (String × List String)) (h : status ≠ 200) :
    download_image (.response status body) =
      .error ("Image download failed (HTTP " ++ toString status ++ ")") ∧
    classify_astronomy_image (.response status body) B cats =
      (.error ("Image download failed (HTTP " ++ toString status ++ ")"), []) := by
  have hd : download_image (.response status body) =
      .error ("Image download failed (HTTP " ++ toString status ++ ")") := by
    simp only [download_image]
    rw [if_pos h]
  refine ⟨hd, ?_⟩
  unfold classify_astronomy_image
  rw [hd]

/-- Witness for C5 at HTTP status 404. -/
theorem non_success_status_fails_witness :
    download_image (.response 404 .decodable) =
      .error ("Image download failed (HTTP " ++ toString 404 ++ ")") ∧
    classify_astronomy_image (.response 404 .decodable)
        (fun _ => .ok []) ASTRONOMY_LABELS =
      (.error ("Image download failed (HTTP " ++ toString 404 ++ ")"), []) :=
  non_success_status_fails 404 .decodable (fun _ => .ok []) ASTRONOMY_LABELS
    (by decide)

/-- C6: the image fetch carries the fixed overall timeout of 20 time units,
and a download on which that timeout elapses fails the request with a
timeout error instead of hanging; the classify operation then returns the
error with an empty backend-call log, so no classification call is made. -/
theorem download_timeout_fails
    (B : List String → Except String (List ClassificationResult))
    (cats : List (String × List String)) :
    fetchTimeoutTotal = 20 ∧
    download_image .timeout = .error "Image download timed out" ∧
    classify_astronomy_image .timeout B cats =
      (.error "Image download timed out", []) := by
  refine ⟨rfl, rfl, ?_⟩
  unfold classify_astronomy_image
  rfl

/-- C7: on confidence scores in the unit interval the rendered star count
is min(5, floor(score * 5) + 1) and lies between 1 and 5; in particular
score 0 gives 1 star, one half gives 3 stars, and 0.99 gives 5 stars. -/
theorem star_rating_formula (s : ℚ) (h0 : 0 ≤ s) (_h1 : s ≤ 1) :
    (confidenceStars s = min 5 (Int.floor (s * 5) + 1) ∧
      1 ≤ confidenceStars s ∧ confidenceStars s ≤ 5) ∧
    confidenceStars 0 = 1 ∧ confidenceStars (1/2) = 3 ∧
    confidenceStars (99/100) = 5 := by
  have hfloor : ∀ q : ℚ, 0 ≤ q →
      confidenceStars q = min 5 (Int.floor (q * 5) + 1) := by
    intro q hq
    unfold confidenceStars
    rw [pyInt_eq_floor _ (by positivity)]
  refine ⟨⟨hfloor s h0, ?_, ?_⟩, ?_, ?_, ?_⟩
  · rw [hfloor s h0, le_min_iff]
    refine ⟨by norm_num, ?_⟩
    have h2 : (0:ℤ) ≤ Int.floor (s * 5) := Int.floor_nonneg.mpr (by positivity)
    omega
  · unfold confidenceStars
    exact min_le_left _ _
  · rw [hfloor 0 le_rfl]
    norm_num
  · rw [hfloor (1/2) (by norm_num)]
    have h3 : Int.floor ((1:ℚ)/2 * 5) = 2 := by
      rw [Int.floor_eq_iff]
      norm_num
    rw [h3]
    decide
  · rw [hfloor (99/100) (by norm_num)]
    have h4 : Int.floor ((99:ℚ)/100 * 5) = 4 := by
      rw [Int.floor_eq_iff]
      norm_num
    rw [h4]
    decide

/-- Witness for C7 at score one half. -/
theorem star_rating_formula_witness :
    ((confidenceStars (1/2) = min 5 (Int.floor ((1:ℚ)/2 * 5) + 1) ∧
      1 ≤ confidenceStars (1/2) ∧ confidenceStars (1/2) ≤ 5) ∧
     confidenceStars 0 = 1 ∧ confidenceStars (1/2) = 3 ∧
     confidenceStars (99/100) = 5) :=
  star_rating_formula (1/2) (by norm_num) (by norm_num)

/-- C8: for a chunked category the selected answer is the maximum-score
result over all collected chunk results, and among results sharing the
maximum score the first-encountered one — in chunk order and within-chunk
rank order — is selected: every earlier position holds a strictly smaller
score. -/
theorem chunked_best_is_stable_max (B : List String → List ClassificationResult)
    (labels : List String) (h : 100 < labels.length)
    (m : ClassificationResult)
    (hm : classifyCategoryPure B labels = some m) :
    m ∈ ((chunks 30 labels).map B).flatten ∧
    (∀ y ∈ ((chunks 30 labels).map B).flatten, y.score ≤ m.score) ∧
    ∃ i : Nat, (((chunks 30 labels).map B).flatten)[i]? = some m ∧
      ∀ j : Nat, j < i → ∀ y : ClassificationResult,
        (((chunks 30 labels).map B).flatten)[j]? = some y →
          y.score < m.score := by
  apply maxByScore_first_max
  unfold classifyCategoryPure at hm
  rw [if_pos h] at hm
  exact hm

/-- Witness for C8 on a concrete 101-label category with a constant
backend. -/
theorem chunked_best_is_stable_max_witness :
    (⟨"w", 1⟩ : ClassificationResult) ∈
      ((chunks 30 (List.replicate 101 "a")).map
        (fun _ => [(⟨"w", 1⟩ : ClassificationResult)])).flatten ∧
    (∀ y ∈ ((chunks 30 (List.replicate 101 "a")).map
        (fun _ => [(⟨"w", 1⟩ : ClassificationResult)])).flatten,
      y.score ≤ (⟨"w", 1⟩ : ClassificationResult).score) ∧
    ∃ i : Nat, (((chunks 30 (List.replicate 101 "a")).map
        (fun _ => [(⟨"w", 1⟩ : ClassificationResult)])).flatten)[i]? =
          some ⟨"w", 1⟩ ∧
      ∀ j : Nat, j < i → ∀ y : ClassificationResult,
        (((chunks 30 (List.replicate 101 "a")).map
          (fun _ => [(⟨"w", 1⟩ : ClassificationResult)])).flatten)[j]? =
            some y → y.score < (⟨"w", 1⟩ : ClassificationResult).score :=
  chunked_best_is_stable_max (fun _ => [⟨"w", 1⟩]) (List.replicate 101 "a")
    (by simp) ⟨"w", 1⟩ (by decide)

/-- C9: in the built-in taxonomy every category — the 88-label
constellations category included — has at most 100 labels, so the chunked
path, taken only above 100 labels, is never used: each built-in category is
classified with a single call carrying its full label list. -/
theorem builtin_taxonomy_never_chunked :
    (∀ p ∈ ASTRONOMY_LABELS, p.2.length ≤ 100 ∧ categoryCalls p.2 = [p.2]) ∧
    (ASTRONOMY_LABELS.lookup "constellations").map List.length = some 88 := by
  decide

/-- Witness for C9 at the constellations category. -/
theorem builtin_taxonomy_never_chunked_witness :
    ("constellations",
        CONSTELLATIONS_88.map (fun c => c ++ " constellation")).2.length ≤ 100 ∧
    categoryCalls ("constellations",
        CONSTELLATIONS_88.map (fun c => c ++ " constellation")).2 =
      [("constellations",
        CONSTELLATIONS_88.map (fun c => c ++ " constellation")).2] :=
  builtin_taxonomy_never_chunked.1
    ("constellations", CONSTELLATIONS_88.map (fun c => c ++ " constellation"))
    (by decide)

/-- C10: a category whose backend results are empty — the single call on
the small path, or every chunk on the chunked path — yields no result and
is silently omitted from the aggregate instead of raising, and the keys of
the aggregate are always among the input category names. -/
theorem empty_results_category_omitted
    (B : List String → List ClassificationResult) (name : String)
    (labels : List String) (rest cats : List (String × List String)) :
    ((labels.length ≤ 100 → B labels = [] →
        classifyCategoryPure B labels = none) ∧
      (100 < labels.length → (∀ c ∈ chunks 30 labels, B c = []) →
        classifyCategoryPure B labels = none)) ∧
    (classifyCategoryPure B labels = none →
      classifyAllPure B ((name, labels) :: rest) = classifyAllPure B rest) ∧
    (∀ k ∈ (classifyAllPure B cats).map Prod.fst, k ∈ cats.map Prod.fst) := by
  refine ⟨⟨?_, ?_⟩, ?_, ?_⟩
  · intro hl hB
    unfold classifyCategoryPure
    rw [if_neg (by omega), hB]
    rfl
  · intro hl hB
    unfold classifyCategoryPure
    rw [if_pos hl]
    have hflat : ((chunks 30 labels).map B).flatten = [] := by
      rw [List.flatten_eq_nil_iff]
      intro l hl2
      rcases List.mem_map.mp hl2 with ⟨c, hc, hcl⟩
      rw [← hcl]
      exact hB c hc
    rw [hflat]
    rfl
  · intro hnone
    unfold classifyAllPure
    rw [List.filterMap_cons]
    simp [hnone]
  · intro k hk
    rcases List.mem_map.mp hk with ⟨pr, hpr, hfst⟩
    rcases List.mem_filterMap.mp hpr with ⟨p, hp, hmap⟩
    rcases Option.map_eq_some'.mp hmap with ⟨r, hr, hpr2⟩
    rw [← hfst, ← hpr2]
    exact List.mem_map.mpr ⟨p, hp, rfl⟩

/-- Witness for C10: a backend returning no results leaves the category out
of the aggregate. -/
theorem empty_results_category_omitted_witness :
    classifyAllPure (fun _ => []) [("planets", ["Mercury"])] =
      classifyAllPure (fun _ => []) [] :=
  (empty_results_category_omitted (fun _ => []) "planets" ["Mercury"] [] []).2.1
    rfl
